import Mathlib

/-!
Shallow embedding of the order pipeline of the E-Commerce-App repository
(Flask + SQLAlchemy storefront backend), covering:

* `src/app/models.py` — the `Product`, `Order`, `OrderItem`, `ChatHistory` rows;
* `src/app/routes/chatbot.py` — `verify_order` (POST /chat/order-verify) and
  `chat_history` (GET /chat/history);
* `src/app/routes/orders.py` — `create_order` (POST /orders/create) and
  `cancel_order` (POST /orders/{id}/cancel);
* `src/app/services/rag_service.py` — `RAGService.chat`,
  `RAGService._fallback_response` and `RAGService._detect_order_intent`.

Conventions of the embedding:

* Python `float` prices are modelled as exact integers in a fixed
  currency subunit (the pipeline only multiplies prices by integer
  quantities and sums, which is exact); Python `int` stock and quantities
  are `Int` (they are unbounded and the code never guards against negative
  values).
* The SQLAlchemy session is modelled as an explicit `State` value threaded
  through each request handler.  Every handler of the source returns its
  HTTP error responses before performing any mutation, and performs all of
  its mutations before the single `db.session.commit()`; accordingly each
  embedded handler returns the new state paired with its result, and an
  error result is paired with the unchanged input state exactly where the
  source returns early.
* `Product.query.get(pk)` / primary-key lookups are `List.find?` on id.
* The chat-history table is kept in chronological (`created_at` ascending,
  ids increasing) insertion order, which is the order `chat_message`
  appends rows in.
-/

namespace ECom

/-- Python float prices, modelled as exact integers in a fixed currency
subunit (cents).  The order pipeline only ever multiplies a price by an
integer quantity and sums the results — operations that are exact in this
representation; no division or rounding occurs anywhere in the embedded
code. -/
abbrev Price := Int

/-- The `Product` row of models.py: id, name, price, stock
(rating/category/image fields are irrelevant to the order pipeline). -/
structure Product where
  id : Nat
  name : String
  price : Price
  stock : Int
  deriving Repr, DecidableEq

/-- The `OrderItem` row of models.py: product reference, quantity, and the
price snapshot taken at purchase time (models.py line 111). -/
structure OrderItem where
  product_id : Nat
  quantity : Int
  price : Price
  deriving Repr, DecidableEq

/-- Status values of `Order.status` (models.py line 85). -/
inductive OrderStatus where
  | pending
  | confirmed
  | shipped
  | delivered
  | cancelled
  deriving Repr, DecidableEq

/-- The `Order` row of models.py together with its owned `OrderItem` rows. -/
structure Order where
  id : Nat
  user_id : Nat
  status : OrderStatus
  total_amount : Price
  items : List OrderItem
  deriving Repr, DecidableEq

/-- The `ChatHistory` row of models.py. -/
structure ChatTurn where
  user_id : Nat
  message : String
  response : String
  deriving Repr, DecidableEq

/-- The database state seen by the order pipeline: the products table, the
orders table (with owned items inlined), the next autoincrement order id,
and the chat-history table in chronological insertion order. -/
structure State where
  products : List Product
  orders : List Order
  nextOrderId : Nat
  chatLog : List ChatTurn
  deriving Repr, DecidableEq

/-- Primary-key lookup `Product.query.get(pid)`. -/
def getProduct (products : List Product) (pid : Nat) : Option Product :=
  products.find? (fun p => p.id == pid)

/-- Primary-key lookup `Order.query.get(oid)`. -/
def getOrder (orders : List Order) (oid : Nat) : Option Order :=
  orders.find? (fun o => o.id == oid)

/-- The stock column of product `pid` in state `s`, when the row exists. -/
def stockOf (s : State) (pid : Nat) : Option Int :=
  (getProduct s.products pid).map (fun p => p.stock)

/-- The price column of product `pid`, defaulting to 0 when absent
(only used to state totals of validated lines, where the row exists). -/
def priceOf (products : List Product) (pid : Nat) : Price :=
  match getProduct products pid with
  | some p => p.price
  | none => 0

/-- The error taxonomy raised by the order routes (each corresponds to an
early `return jsonify(...), 4xx` in orders.py / chatbot.py). -/
inductive OrderError where
  | emptyOrder
  | productNotFound (pid : Nat)
  | invalidQuantity
  | insufficientStock (pid : Nat) (available : Int)
  deriving Repr, DecidableEq

/-- One validated line of an order request, as accumulated by the
validation loops: the product id, and the name/price read from the catalog
row during validation, with the requested quantity. -/
structure LineInfo where
  product_id : Nat
  name : String
  price : Price
  quantity : Int
  deriving Repr, DecidableEq

/-- chatbot.py line 69: `qty = quantities[i] if i < len(quantities) else 1`
— pair each product id with its quantity, defaulting to 1 past the end of
the quantities list. -/
def linesOf : List Nat → List Int → List (Nat × Int)
  | [], _ => []
  | pid :: ps, [] => (pid, 1) :: linesOf ps []
  | pid :: ps, q :: qs => (pid, q) :: linesOf ps qs

/-- The validation loop of `verify_order` (chatbot.py lines 61–85): look
each product up, fail with 404 if absent, fail with 400 if the requested
quantity exceeds current stock.  Note the source performs no minimum-
quantity check on this path. -/
def validateChatLines (products : List Product) :
    List (Nat × Int) → Except OrderError (List LineInfo)
  | [] => .ok []
  | (pid, qty) :: rest =>
    match getProduct products pid with
    | none => .error (.productNotFound pid)
    | some p =>
      if qty > p.stock then
        .error (.insufficientStock pid p.stock)
      else
        match validateChatLines products rest with
        | .error e => .error e
        | .ok tail => .ok (⟨pid, p.name, p.price, qty⟩ :: tail)

/-- One element of the `items` JSON list of POST /orders/create; an absent
`quantity` key defaults to 1 (orders.py line 52, `item.get('quantity', 1)`). -/
structure CreateItem where
  product_id : Nat
  quantity : Option Int
  deriving Repr, DecidableEq

/-- The validation loop of `create_order` (orders.py lines 47–66):
product lookup, then the `quantity < 1` check, then the stock check. -/
def validateCreateLines (products : List Product) :
    List CreateItem → Except OrderError (List LineInfo)
  | [] => .ok []
  | it :: rest =>
    match getProduct products it.product_id with
    | none => .error (.productNotFound it.product_id)
    | some p =>
      let qty := it.quantity.getD 1
      if qty < 1 then .error .invalidQuantity
      else if qty > p.stock then
        .error (.insufficientStock it.product_id p.stock)
      else
        match validateCreateLines products rest with
        | .error e => .error e
        | .ok tail => .ok (⟨it.product_id, p.name, p.price, qty⟩ :: tail)

/-- The update `product.stock -= qty` on the row `Product.query.get(pid)` returned:
decrement the stock of the first product with the given id. -/
def decStock (products : List Product) (pid : Nat) (qty : Int) : List Product :=
  match products with
  | [] => []
  | p :: rest =>
    if p.id == pid then { p with stock := p.stock - qty } :: rest
    else p :: decStock rest pid qty

/-- The update `item.product.stock += item.quantity` (orders.py line 134): increment
the stock of the first product with the given id. -/
def incStock (products : List Product) (pid : Nat) (qty : Int) : List Product :=
  match products with
  | [] => []
  | p :: rest =>
    if p.id == pid then { p with stock := p.stock + qty } :: rest
    else p :: incStock rest pid qty

/-- Subtotal accumulation of the validation loops:
`total += product.price * qty`. -/
def linesTotal (lines : List LineInfo) : Price :=
  (lines.map (fun l => l.price * l.quantity)).sum

/-- The `OrderItem` rows written for the validated lines (chatbot.py lines
110–117 / orders.py lines 79–89): quantity and snapshotted price from the
validated lookup. -/
def mkItems (lines : List LineInfo) : List OrderItem :=
  lines.map (fun l => ⟨l.product_id, l.quantity, l.price⟩)

/-- The commit phase shared by both order-creation paths: insert a new
`pending` order with the recomputed total, one `OrderItem` per validated
line, and decrement each line's product stock by its quantity; all before
the single `db.session.commit()`. -/
def commitOrder (s : State) (uid : Nat) (lines : List LineInfo) :
    State × Order :=
  let order : Order :=
    ⟨s.nextOrderId, uid, .pending, linesTotal lines, mkItems lines⟩
  let products' :=
    lines.foldl (fun ps l => decStock ps l.product_id l.quantity) s.products
  ({ s with
      products := products'
      orders := s.orders ++ [order]
      nextOrderId := s.nextOrderId + 1 },
   order)

/-- Result of POST /chat/order-verify. -/
inductive VerifyResult where
  | error (e : OrderError)
  | pendingConfirmation (summary : List LineInfo) (total : Price)
  | orderCreated (o : Order)
  deriving Repr, DecidableEq

/-- Handler `verify_order` (chatbot.py lines 41–130): reject an empty product list,
validate every line against the live catalog, then either return the quote
summary (`confirm == false`, no mutation) or commit the order. -/
def verify_order (s : State) (uid : Nat) (product_ids : List Nat)
    (quantities : List Int) (confirm : Bool) : State × VerifyResult :=
  if product_ids.isEmpty then (s, .error .emptyOrder)
  else
    match validateChatLines s.products (linesOf product_ids quantities) with
    | .error e => (s, .error e)
    | .ok lines =>
      if !confirm then (s, .pendingConfirmation lines (linesTotal lines))
      else
        let (s', o) := commitOrder s uid lines
        (s', .orderCreated o)

/-- Result of POST /orders/create. -/
inductive CreateResult where
  | error (e : OrderError)
  | created (o : Order)
  deriving Repr, DecidableEq

/-- Handler `create_order` (orders.py lines 32–97): reject an empty item list,
validate every line, then commit.  The `shipping_address` field is carried
through unchanged by the source and omitted here. -/
def create_order (s : State) (uid : Nat) (items : List CreateItem) :
    State × CreateResult :=
  if items.isEmpty then (s, .error .emptyOrder)
  else
    match validateCreateLines s.products items with
    | .error e => (s, .error e)
    | .ok lines =>
      let (s', o) := commitOrder s uid lines
      (s', .created o)

/-- Result of POST /orders/{id}/cancel. -/
inductive CancelResult where
  | notFound
  | unauthorized
  | notCancellable
  | cancelled (o : Order)
  deriving Repr, DecidableEq

/-- Replace the order with the same id (the in-session row update). -/
def setOrder (orders : List Order) (o : Order) : List Order :=
  orders.map (fun x => if x.id == o.id then o else x)

/-- Handler `cancel_order` (orders.py lines 121–143): 404 on a missing order, 403
on foreign ownership, 400 unless the status is pending or confirmed;
otherwise restore each item's quantity to its product's stock and set the
status to cancelled. -/
def cancel_order (s : State) (uid : Nat) (oid : Nat) : State × CancelResult :=
  match getOrder s.orders oid with
  | none => (s, .notFound)
  | some o =>
    if o.user_id ≠ uid then (s, .unauthorized)
    else if o.status = .pending ∨ o.status = .confirmed then
      let products' :=
        o.items.foldl (fun ps it => incStock ps it.product_id it.quantity)
          s.products
      let o' := { o with status := .cancelled }
      ({ s with products := products', orders := setOrder s.orders o' },
       .cancelled o')
    else (s, .notCancellable)

/-- Handler `chat_history` (chatbot.py lines 133–145): the user's rows ordered by
`created_at` descending, limited to 50, then reversed for display. -/
def chat_history (s : State) (uid : Nat) : List ChatTurn :=
  (((s.chatLog.filter (fun t => t.user_id == uid)).reverse.take 50)).reverse

/-! ## The RAG chat service (rag_service.py) -/

/-- Character-list prefix test (`hay` starts with `pat`). -/
def leadsWith : List Char → List Char → Bool
  | _, [] => true
  | [], _ :: _ => false
  | h :: t, p :: ps => h == p && leadsWith t ps

/-- Python's `pat in hay` substring test on character lists. -/
def containsSub (hay pat : List Char) : Bool :=
  match hay with
  | [] => pat.isEmpty
  | _ :: t => leadsWith hay pat || containsSub t pat

/-- Python's `pat in hay` on strings. -/
def strContains (hay pat : String) : Bool :=
  containsSub hay.data pat.data

/-- The greeting canned response (rag_service.py line 212). -/
def greetingResponse : String :=
  "Hello! Welcome to our store. I can help you find products in our categories: Toys, Electronics, Dresses, Cosmetics, and Footwear. How can I assist you today?"

/-- The category-inquiry canned response (rag_service.py line 214). -/
def categoryResponse : String :=
  "We have 5 categories: Toys, Electronics, Dresses, Cosmetics, and Footwear. Which category interests you?"

/-- The order-inquiry canned response (rag_service.py line 216). -/
def orderResponse : String :=
  "To place an order, please browse our products, select the items you want, and proceed to checkout. Would you like me to help you find something specific?"

/-- The help canned response (rag_service.py line 218). -/
def helpResponse : String :=
  "I can help you with:\n- Finding products in different categories\n- Product recommendations\n- Order placement and confirmation\n- Answering questions about items\n\nWhat would you like assistance with?"

/-- The default canned response (rag_service.py line 220). -/
def defaultResponse : String :=
  "I\x27m here to help! You can ask me about our products, categories, or placing orders. What would you like to know?"

/-- The fixed canned-response set of `_fallback_response`. -/
def cannedResponses : List String :=
  [greetingResponse, categoryResponse, orderResponse, helpResponse,
   defaultResponse]

/-- The substring-rule selection of `_fallback_response`
(rag_service.py lines 209–220) over the lowercased message. -/
def fallbackText (message : String) : String :=
  let m := message.toLower
  if strContains m "hello" || strContains m "hi" then greetingResponse
  else if strContains m "category" || strContains m "categories" then
    categoryResponse
  else if strContains m "order" then orderResponse
  else if strContains m "help" then helpResponse
  else defaultResponse

/-- A cited product source of a generative answer. -/
structure ChatSource where
  product_id : Nat
  name : String
  price : Price
  deriving Repr, DecidableEq

/-- The response dictionary returned by `RAGService.chat`; absent keys of
the Python dict are modelled as `false` / `none` / `[]`. -/
structure ChatResponse where
  success : Bool
  response : String
  sources : List ChatSource
  fallback : Bool
  action : Option String
  requires_confirmation : Bool
  deriving Repr, DecidableEq

/-- Method `_fallback_response` (rag_service.py lines 207–227): the selected
canned text with `success=True`, no sources and `fallback=True`. -/
def fallback_response (message : String) : ChatResponse :=
  { success := true
    response := fallbackText message
    sources := []
    fallback := true
    action := none
    requires_confirmation := false }

/-- Method `_detect_order_intent` (rag_service.py lines 198–205): pure keyword
classifier over the lowercased message. -/
def detect_order_intent (message : String) : Bool :=
  let m := message.toLower
  [ "order", "buy", "purchase", "add to cart", "checkout",
    "i want", "i need", "i\x27d like", "get me", "can i get"
  ].any (fun kw => strContains m kw)

/-- Service flags of `RAGService`: `self.initialized` and whether
`self.vectorstore` is set. -/
structure RAGState where
  initialized : Bool
  vectorstoreReady : Bool
  deriving Repr, DecidableEq

/-- Method `RAGService.chat` (rag_service.py lines 126–196).  The generative
retrieval-chain invocation is an external call; its outcome is passed in
as `gen`: `.error` when the chain raises, `.ok (answer, sources)` when it
returns.  If the service is uninitialized, the vector store is absent, or
the chain raises, the fallback response is returned; otherwise the answer
is annotated with order intent when detected. -/
def rag_chat (st : RAGState) (gen : Except String (String × List ChatSource))
    (message : String) : ChatResponse :=
  if !st.initialized || !st.vectorstoreReady then fallback_response message
  else
    match gen with
    | .error _ => fallback_response message
    | .ok (answer, srcs) =>
      let base : ChatResponse :=
        { success := true, response := answer, sources := srcs
          fallback := false, action := none, requires_confirmation := false }
      if detect_order_intent message then
        { base with action := some "order_intent", requires_confirmation := true }
      else base

/-! ## Two-request interleaving model of the stock check-then-decrement

`verify_order` with `confirm=true` reads a product's stock into the
request's session (`Product.query.get`, chatbot.py line 62), checks
`qty > product.stock` against that read value (line 71), and later writes
back `product.stock -= qty` computed from the same read value (line 118),
committed at line 120.  Nothing in the source locks the row or re-checks
at write time, so two requests may interleave at this read/write
granularity.  The model below runs two such confirmations for the same
single product step by step under an explicit schedule. -/

/-- Progress of one in-flight confirmation for the shared product:
not yet read; read-and-checked successfully (holding the stock value its
session read); or finished (`true` = order committed, `false` =
InsufficientStock returned). -/
inductive ReqPhase where
  | start
  | checked (localStock : Int)
  | done (success : Bool)
  deriving Repr, DecidableEq

/-- Shared state of the race: the product's stock column, the two request
phases, and how many orders have been committed. -/
structure RaceState where
  stock : Int
  r1 : ReqPhase
  r2 : ReqPhase
  ordersCreated : Nat
  deriving Repr, DecidableEq

/-- One step of one confirmation requesting `qty` units: from `start`,
perform the read and the `qty > stock` check (failing returns the
InsufficientStock response); from `checked v`, write `stock := v - qty`
and commit the order. -/
def raceStep (qty : Int) (stock : Int) (ph : ReqPhase) :
    Int × ReqPhase × Nat :=
  match ph with
  | .start =>
    if qty > stock then (stock, .done false, 0)
    else (stock, .checked stock, 0)
  | .checked v => (v - qty, .done true, 1)
  | .done b => (stock, .done b, 0)

/-- Run the two confirmations (requesting `q1` and `q2` units) under a
schedule: `true` steps request 1, `false` steps request 2. -/
def runRace (q1 q2 : Int) : RaceState → List Bool → RaceState
  | st, [] => st
  | st, true :: rest =>
    let (stock', ph', k) := raceStep q1 st.stock st.r1
    runRace q1 q2
      { st with stock := stock', r1 := ph',
                ordersCreated := st.ordersCreated + k } rest
  | st, false :: rest =>
    let (stock', ph', k) := raceStep q2 st.stock st.r2
    runRace q1 q2
      { st with stock := stock', r2 := ph',
                ordersCreated := st.ordersCreated + k } rest

/-- Initial race state: both requests pending, no orders. -/
def raceInit (stock : Int) : RaceState :=
  ⟨stock, .start, .start, 0⟩

/-! ## Specification-side helpers used to state the claims -/

/-- Total quantity requested for product `pid` across a line list. -/
def reqDelta (lines : List LineInfo) (pid : Nat) : Int :=
  ((lines.filter (fun l => l.product_id == pid)).map
    (fun l => l.quantity)).sum

/-- Total quantity recorded for product `pid` across an order's items. -/
def itemDelta (items : List OrderItem) (pid : Nat) : Int :=
  ((items.filter (fun it => it.product_id == pid)).map
    (fun it => it.quantity)).sum

/-- The specification's quote total: sum over requested lines of the
catalog's current price times the requested quantity. -/
def specTotal (ps : List Product) (reqs : List (Nat × Int)) : Price :=
  (reqs.map (fun pq => priceOf ps pq.1 * pq.2)).sum

/-- The specification's order-total invariant: the stored total equals the
sum over the order's items of the snapshotted price times quantity. -/
def totalInvariant (o : Order) : Prop :=
  o.total_amount =
    (o.items.map (fun it => it.price * it.quantity)).sum

/-- A catalog price change applied to the products table only; models.py
keeps `OrderItem.price` as a separate stored column ("Price at time of
purchase"), so order rows are untouched by such a change. -/
def setProductPrice (s : State) (pid : Nat) (newPrice : Price) : State :=
  { s with
      products := s.products.map
        (fun p => if p.id == pid then { p with price := newPrice } else p) }

/-! ## Helper lemmas -/

theorem linesOf_length : ∀ (pids : List Nat) (qtys : List Int),
    (linesOf pids qtys).length = pids.length := by
  intro pids
  induction pids with
  | nil => intro qtys; cases qtys <;> rfl
  | cons pid ps ih =>
    intro qtys
    cases qtys with
    | nil => simpa [linesOf] using ih []
    | cons q qs => simpa [linesOf] using ih qs

theorem getProduct_decStock_ne (pid x : Nat) (qty : Int) (h : x ≠ pid) :
    ∀ ps : List Product,
      getProduct (decStock ps pid qty) x = getProduct ps x := by
  intro ps
  induction ps with
  | nil => rfl
  | cons p rest ih =>
    show getProduct
        (if p.id == pid then { p with stock := p.stock - qty } :: rest
         else p :: decStock rest pid qty) x = _
    by_cases hp : p.id = pid
    · rw [if_pos (beq_iff_eq.mpr hp)]
      have hpx : p.id ≠ x := fun he => h (he.symm.trans hp)
      unfold getProduct
      rw [List.find?_cons_of_neg _ (by simpa using hpx),
          List.find?_cons_of_neg _ (by simpa using hpx)]
    · rw [if_neg (by simpa using hp)]
      unfold getProduct
      by_cases hx : p.id = x
      · rw [List.find?_cons_of_pos _ (by simpa using hx),
            List.find?_cons_of_pos _ (by simpa using hx)]
      · rw [List.find?_cons_of_neg _ (by simpa using hx),
            List.find?_cons_of_neg _ (by simpa using hx)]
        exact ih

theorem getProduct_decStock_self (pid : Nat) (qty : Int) :
    ∀ ps : List Product,
      getProduct (decStock ps pid qty) pid =
        (getProduct ps pid).map
          (fun p => { p with stock := p.stock - qty }) := by
  intro ps
  induction ps with
  | nil => rfl
  | cons p rest ih =>
    show getProduct
        (if p.id == pid then { p with stock := p.stock - qty } :: rest
         else p :: decStock rest pid qty) pid = _
    by_cases hp : p.id = pid
    · rw [if_pos (beq_iff_eq.mpr hp)]
      unfold getProduct
      rw [List.find?_cons_of_pos _ (by simpa using hp),
          List.find?_cons_of_pos _ (by simpa using hp)]
      rfl
    · rw [if_neg (by simpa using hp)]
      unfold getProduct
      rw [List.find?_cons_of_neg _ (by simpa using hp),
          List.find?_cons_of_neg _ (by simpa using hp)]
      exact ih

theorem getProduct_incStock_ne (pid x : Nat) (qty : Int) (h : x ≠ pid) :
    ∀ ps : List Product,
      getProduct (incStock ps pid qty) x = getProduct ps x := by
  intro ps
  induction ps with
  | nil => rfl
  | cons p rest ih =>
    show getProduct
        (if p.id == pid then { p with stock := p.stock + qty } :: rest
         else p :: incStock rest pid qty) x = _
    by_cases hp : p.id = pid
    · rw [if_pos (beq_iff_eq.mpr hp)]
      have hpx : p.id ≠ x := fun he => h (he.symm.trans hp)
      unfold getProduct
      rw [List.find?_cons_of_neg _ (by simpa using hpx),
          List.find?_cons_of_neg _ (by simpa using hpx)]
    · rw [if_neg (by simpa using hp)]
      unfold getProduct
      by_cases hx : p.id = x
      · rw [List.find?_cons_of_pos _ (by simpa using hx),
            List.find?_cons_of_pos _ (by simpa using hx)]
      · rw [List.find?_cons_of_neg _ (by simpa using hx),
            List.find?_cons_of_neg _ (by simpa using hx)]
        exact ih

theorem getProduct_incStock_self (pid : Nat) (qty : Int) :
    ∀ ps : List Product,
      getProduct (incStock ps pid qty) pid =
        (getProduct ps pid).map
          (fun p => { p with stock := p.stock + qty }) := by
  intro ps
  induction ps with
  | nil => rfl
  | cons p rest ih =>
    show getProduct
        (if p.id == pid then { p with stock := p.stock + qty } :: rest
         else p :: incStock rest pid qty) pid = _
    by_cases hp : p.id = pid
    · rw [if_pos (beq_iff_eq.mpr hp)]
      unfold getProduct
      rw [List.find?_cons_of_pos _ (by simpa using hp),
          List.find?_cons_of_pos _ (by simpa using hp)]
      rfl
    · rw [if_neg (by simpa using hp)]
      unfold getProduct
      rw [List.find?_cons_of_neg _ (by simpa using hp),
          List.find?_cons_of_neg _ (by simpa using hp)]
      exact ih

theorem stock_foldl_dec (x : Nat) :
    ∀ (lines : List LineInfo) (ps : List Product),
      getProduct
        (lines.foldl (fun a l => decStock a l.product_id l.quantity) ps) x =
      (getProduct ps x).map
        (fun p => { p with stock := p.stock - reqDelta lines x }) := by
  intro lines
  induction lines with
  | nil =>
    intro ps
    cases hg : getProduct ps x with
    | none => simp [hg]
    | some p => simp [hg, reqDelta]
  | cons l ls ih =>
    intro ps
    rw [List.foldl_cons, ih]
    by_cases hx : x = l.product_id
    · subst hx
      rw [getProduct_decStock_self]
      have hd : reqDelta (l :: ls) l.product_id =
          l.quantity + reqDelta ls l.product_id := by
        simp [reqDelta, List.filter]
      rw [hd]
      cases hg : getProduct ps l.product_id with
      | none => simp
      | some p => simp [sub_sub]
    · rw [getProduct_decStock_ne _ _ _ hx]
      have hd : reqDelta (l :: ls) x = reqDelta ls x := by
        have hb : (l.product_id == x) = false := by
          simp only [beq_eq_false_iff_ne, ne_eq]
          exact fun he => hx he.symm
        simp [reqDelta, List.filter, hb]
      rw [hd]

theorem stock_foldl_inc (x : Nat) :
    ∀ (items : List OrderItem) (ps : List Product),
      getProduct
        (items.foldl (fun a it => incStock a it.product_id it.quantity) ps) x =
      (getProduct ps x).map
        (fun p => { p with stock := p.stock + itemDelta items x }) := by
  intro items
  induction items with
  | nil =>
    intro ps
    cases hg : getProduct ps x with
    | none => simp [hg]
    | some p => simp [hg, itemDelta]
  | cons it its ih =>
    intro ps
    rw [List.foldl_cons, ih]
    by_cases hx : x = it.product_id
    · subst hx
      rw [getProduct_incStock_self]
      have hd : itemDelta (it :: its) it.product_id =
          it.quantity + itemDelta its it.product_id := by
        simp [itemDelta, List.filter]
      rw [hd]
      cases hg : getProduct ps it.product_id with
      | none => simp
      | some p => simp [add_assoc]
    · rw [getProduct_incStock_ne _ _ _ hx]
      have hd : itemDelta (it :: its) x = itemDelta its x := by
        have hb : (it.product_id == x) = false := by
          simp only [beq_eq_false_iff_ne, ne_eq]
          exact fun he => hx he.symm
        simp [itemDelta, List.filter, hb]
      rw [hd]

theorem validateChat_ok_spec :
    ∀ (reqs : List (Nat × Int)) (ps : List Product) (lines : List LineInfo),
      validateChatLines ps reqs = .ok lines →
      lines.map (fun l => (l.product_id, l.quantity)) = reqs ∧
      ∀ l ∈ lines, ∃ p, getProduct ps l.product_id = some p ∧
        l.name = p.name ∧ l.price = p.price ∧ l.quantity ≤ p.stock := by
  intro reqs
  induction reqs with
  | nil =>
    intro ps lines h
    simp only [validateChatLines, Except.ok.injEq] at h
    subst h
    exact ⟨rfl, by simp⟩
  | cons pq rest ih =>
    intro ps lines h
    obtain ⟨pid, qty⟩ := pq
    simp only [validateChatLines] at h
    cases hg : getProduct ps pid with
    | none => rw [hg] at h; exact Except.noConfusion h
    | some p =>
      rw [hg] at h
      dsimp only at h
      by_cases hst : qty > p.stock
      · rw [if_pos hst] at h; exact Except.noConfusion h
      · rw [if_neg hst] at h
        cases hrec : validateChatLines ps rest with
        | error e => rw [hrec] at h; exact Except.noConfusion h
        | ok tail =>
          rw [hrec] at h
          dsimp only at h
          injection h with h'
          subst h'
          obtain ⟨ihmap, ihmem⟩ := ih ps tail hrec
          refine ⟨by simp [ihmap], ?_⟩
          intro l hl
          rcases List.mem_cons.mp hl with h1 | h2
          · subst h1; exact ⟨p, hg, rfl, rfl, not_lt.mp hst⟩
          · exact ihmem l h2

theorem validateChat_isOk_of_valid :
    ∀ (reqs : List (Nat × Int)) (ps : List Product),
      (∀ pq ∈ reqs, ∃ p, getProduct ps pq.1 = some p ∧ pq.2 ≤ p.stock) →
      ∃ lines, validateChatLines ps reqs = .ok lines := by
  intro reqs
  induction reqs with
  | nil => intro ps _; exact ⟨[], rfl⟩
  | cons pq rest ih =>
    intro ps hv
    obtain ⟨pid, qty⟩ := pq
    obtain ⟨p, hg, hle⟩ := hv (pid, qty) (List.mem_cons_self _ _)
    have hg' : getProduct ps pid = some p := hg
    have hle' : qty ≤ p.stock := hle
    obtain ⟨tail, htail⟩ :=
      ih ps (fun x hx => hv x (List.mem_cons_of_mem _ hx))
    refine ⟨⟨pid, p.name, p.price, qty⟩ :: tail, ?_⟩
    simp only [validateChatLines]
    rw [hg']
    dsimp only
    rw [if_neg (not_lt.mpr hle'), htail]

theorem linesTotal_eq_specTotal :
    ∀ (reqs : List (Nat × Int)) (ps : List Product) (lines : List LineInfo),
      validateChatLines ps reqs = .ok lines →
      linesTotal lines = specTotal ps reqs := by
  intro reqs
  induction reqs with
  | nil =>
    intro ps lines h
    simp only [validateChatLines, Except.ok.injEq] at h
    subst h
    rfl
  | cons pq rest ih =>
    intro ps lines h
    obtain ⟨pid, qty⟩ := pq
    simp only [validateChatLines] at h
    cases hg : getProduct ps pid with
    | none => rw [hg] at h; exact Except.noConfusion h
    | some p =>
      rw [hg] at h
      dsimp only at h
      by_cases hst : qty > p.stock
      · rw [if_pos hst] at h; exact Except.noConfusion h
      · rw [if_neg hst] at h
        cases hrec : validateChatLines ps rest with
        | error e => rw [hrec] at h; exact Except.noConfusion h
        | ok tail =>
          rw [hrec] at h
          dsimp only at h
          injection h with h'
          subst h'
          have hp : priceOf ps pid = p.price := by simp [priceOf, hg]
          have hih := ih ps tail hrec
          simp only [linesTotal, specTotal, List.map_cons, List.sum_cons]
            at hih ⊢
          rw [hih, hp]

theorem validateCreate_ok_spec :
    ∀ (its : List CreateItem) (ps : List Product) (lines : List LineInfo),
      validateCreateLines ps its = .ok lines →
      lines.map (fun l => (l.product_id, l.quantity)) =
        its.map (fun it => (it.product_id, it.quantity.getD 1)) ∧
      ∀ l ∈ lines, 1 ≤ l.quantity ∧
        ∃ p, getProduct ps l.product_id = some p ∧
          l.name = p.name ∧ l.price = p.price ∧ l.quantity ≤ p.stock := by
  intro its
  induction its with
  | nil =>
    intro ps lines h
    simp only [validateCreateLines, Except.ok.injEq] at h
    subst h
    exact ⟨rfl, by simp⟩
  | cons it rest ih =>
    intro ps lines h
    simp only [validateCreateLines] at h
    cases hg : getProduct ps it.product_id with
    | none => rw [hg] at h; exact Except.noConfusion h
    | some p =>
      rw [hg] at h
      dsimp only at h
      by_cases h1 : it.quantity.getD 1 < 1
      · rw [if_pos h1] at h; exact Except.noConfusion h
      · rw [if_neg h1] at h
        by_cases hst : it.quantity.getD 1 > p.stock
        · rw [if_pos hst] at h; exact Except.noConfusion h
        · rw [if_neg hst] at h
          cases hrec : validateCreateLines ps rest with
          | error e => rw [hrec] at h; exact Except.noConfusion h
          | ok tail =>
            rw [hrec] at h
            dsimp only at h
            injection h with h'
            subst h'
            obtain ⟨ihmap, ihmem⟩ := ih ps tail hrec
            refine ⟨by simp [ihmap], ?_⟩
            intro l hl
            rcases List.mem_cons.mp hl with hc | hc
            · subst hc
              exact ⟨not_lt.mp h1, p, hg, rfl, rfl, not_lt.mp hst⟩
            · exact ihmem l hc

theorem verify_order_cases (s : State) (uid : Nat) (pids : List Nat)
    (qtys : List Int) (confirm : Bool) :
    (pids.isEmpty = true ∧
       verify_order s uid pids qtys confirm = (s, .error .emptyOrder)) ∨
    (∃ e, validateChatLines s.products (linesOf pids qtys) = .error e ∧
       verify_order s uid pids qtys confirm = (s, .error e)) ∨
    (∃ lines, validateChatLines s.products (linesOf pids qtys) = .ok lines ∧
       ((confirm = false ∧ verify_order s uid pids qtys confirm =
           (s, .pendingConfirmation lines (linesTotal lines))) ∨
        (confirm = true ∧ verify_order s uid pids qtys confirm =
           ((commitOrder s uid lines).1,
            .orderCreated (commitOrder s uid lines).2)))) := by
  by_cases he : pids.isEmpty = true
  · exact Or.inl ⟨he, by simp [verify_order, he]⟩
  · cases hv : validateChatLines s.products (linesOf pids qtys) with
    | error e =>
      exact Or.inr (Or.inl ⟨e, rfl, by simp [verify_order, he, hv]⟩)
    | ok lines =>
      refine Or.inr (Or.inr ⟨lines, rfl, ?_⟩)
      cases confirm with
      | false => exact Or.inl ⟨rfl, by simp [verify_order, he, hv]⟩
      | true => exact Or.inr ⟨rfl, by simp [verify_order, he, hv]⟩

theorem create_order_cases (s : State) (uid : Nat) (its : List CreateItem) :
    (its.isEmpty = true ∧
       create_order s uid its = (s, .error .emptyOrder)) ∨
    (∃ e, validateCreateLines s.products its = .error e ∧
       create_order s uid its = (s, .error e)) ∨
    (∃ lines, validateCreateLines s.products its = .ok lines ∧
       create_order s uid its =
         ((commitOrder s uid lines).1,
          .created (commitOrder s uid lines).2)) := by
  by_cases he : its.isEmpty = true
  · exact Or.inl ⟨he, by simp [create_order, he]⟩
  · cases hv : validateCreateLines s.products its with
    | error e =>
      exact Or.inr (Or.inl ⟨e, rfl, by simp [create_order, he, hv]⟩)
    | ok lines =>
      exact Or.inr (Or.inr ⟨lines, rfl, by simp [create_order, he, hv]⟩)

theorem commitOrder_orders (s : State) (uid : Nat) (lines : List LineInfo) :
    (commitOrder s uid lines).1.orders =
      s.orders ++ [(commitOrder s uid lines).2] := rfl

theorem commitOrder_stock (s : State) (uid : Nat) (lines : List LineInfo)
    (pid : Nat) :
    getProduct (commitOrder s uid lines).1.products pid =
      (getProduct s.products pid).map
        (fun p => { p with stock := p.stock - reqDelta lines pid }) :=
  stock_foldl_dec pid lines s.products

theorem itemDelta_mkItems (pid : Nat) :
    ∀ lines : List LineInfo,
      itemDelta (mkItems lines) pid = reqDelta lines pid := by
  intro lines
  induction lines with
  | nil => rfl
  | cons l ls ih =>
    show itemDelta
      ((⟨l.product_id, l.quantity, l.price⟩ : OrderItem) :: mkItems ls) pid = _
    cases hb : (l.product_id == pid) with
    | false =>
      have h1 : itemDelta
          ((⟨l.product_id, l.quantity, l.price⟩ : OrderItem) :: mkItems ls)
            pid = itemDelta (mkItems ls) pid := by
        simp [itemDelta, List.filter, hb]
      have h2 : reqDelta (l :: ls) pid = reqDelta ls pid := by
        simp [reqDelta, List.filter, hb]
      rw [h1, h2, ih]
    | true =>
      have h1 : itemDelta
          ((⟨l.product_id, l.quantity, l.price⟩ : OrderItem) :: mkItems ls)
            pid = l.quantity + itemDelta (mkItems ls) pid := by
        simp [itemDelta, List.filter, hb]
      have h2 : reqDelta (l :: ls) pid = l.quantity + reqDelta ls pid := by
        simp [reqDelta, List.filter, hb]
      rw [h1, h2, ih]

theorem mkItems_pairs (lines : List LineInfo) :
    (mkItems lines).map (fun it => (it.product_id, it.quantity)) =
      lines.map (fun l => (l.product_id, l.quantity)) := by
  unfold mkItems
  rw [List.map_map]
  rfl

theorem totalInvariant_commit (s : State) (uid : Nat)
    (lines : List LineInfo) : totalInvariant (commitOrder s uid lines).2 := by
  show linesTotal lines =
    ((mkItems lines).map (fun it => it.price * it.quantity)).sum
  unfold linesTotal mkItems
  rw [List.map_map]
  rfl

theorem getOrder_setOrder (oid : Nat) (o o' : Order) (hid : o'.id = o.id) :
    ∀ orders : List Order, getOrder orders oid = some o →
      getOrder (setOrder orders o') oid = some o' := by
  intro orders
  induction orders with
  | nil => intro h; exact Option.noConfusion h
  | cons x rest ih =>
    intro h
    by_cases hx : x.id = oid
    · have hfound : x = o := by
        unfold getOrder at h
        rw [List.find?_cons_of_pos _ (by simpa using hx)] at h
        exact (Option.some.injEq _ _ ▸ h :)
      subst hfound
      have hxo : (x.id == o'.id) = true := by simp [hid]
      show getOrder ((if x.id == o'.id then o' else x) :: setOrder rest o')
        oid = some o'
      rw [if_pos hxo]
      unfold getOrder
      rw [List.find?_cons_of_pos _ (by simp [hid, hx])]
    · have hox : o.id = oid := by
        unfold getOrder at h
        rw [List.find?_cons_of_neg _ (by simpa using hx)] at h
        have := List.find?_some h
        simpa using this
      have hxo : (x.id == o'.id) = false := by
        simp only [beq_eq_false_iff_ne, ne_eq, hid, hox]
        exact hx
      show getOrder ((if x.id == o'.id then o' else x) :: setOrder rest o')
        oid = some o'
      rw [if_neg (by simp [hxo])]
      unfold getOrder at h ⊢
      rw [List.find?_cons_of_neg _ (by simpa using hx)] at h ⊢
      exact ih h

theorem verify_quote_inv (s : State) (uid : Nat) (pids : List Nat)
    (qtys : List Int) (lines : List LineInfo) (t : Price)
    (h : (verify_order s uid pids qtys false).2 =
      .pendingConfirmation lines t) :
    validateChatLines s.products (linesOf pids qtys) = .ok lines := by
  rcases verify_order_cases s uid pids qtys false with
    ⟨_, hrun⟩ | ⟨e, hv, hrun⟩ | ⟨lines', hv, ⟨_, hrun⟩ | ⟨hfalse, _⟩⟩
  · rw [hrun] at h; exact VerifyResult.noConfusion h
  · rw [hrun] at h; exact VerifyResult.noConfusion h
  · rw [hrun] at h
    injection h with h1 h2
    rw [← h1]
    exact hv
  · exact Bool.noConfusion hfalse

theorem verify_confirm_inv (s : State) (uid : Nat) (pids : List Nat)
    (qtys : List Int) (o : Order)
    (h : (verify_order s uid pids qtys true).2 = .orderCreated o) :
    ∃ lines, validateChatLines s.products (linesOf pids qtys) = .ok lines ∧
      o = (commitOrder s uid lines).2 ∧
      (verify_order s uid pids qtys true).1 = (commitOrder s uid lines).1 := by
  rcases verify_order_cases s uid pids qtys true with
    ⟨_, hrun⟩ | ⟨e, hv, hrun⟩ | ⟨lines, hv, ⟨hfalse, _⟩ | ⟨_, hrun⟩⟩
  · rw [hrun] at h; exact VerifyResult.noConfusion h
  · rw [hrun] at h; exact VerifyResult.noConfusion h
  · exact Bool.noConfusion hfalse
  · rw [hrun] at h
    injection h with h1
    exact ⟨lines, hv, h1.symm, by rw [hrun]⟩

theorem verify_error_state (s : State) (uid : Nat) (pids : List Nat)
    (qtys : List Int) (c : Bool) (e : OrderError)
    (h : (verify_order s uid pids qtys c).2 = .error e) :
    (verify_order s uid pids qtys c).1 = s := by
  rcases verify_order_cases s uid pids qtys c with
    ⟨_, hrun⟩ | ⟨e', hv, hrun⟩ | ⟨lines, hv, ⟨_, hrun⟩ | ⟨_, hrun⟩⟩
  · rw [hrun]
  · rw [hrun]
  · rw [hrun] at h; exact VerifyResult.noConfusion h
  · rw [hrun] at h; exact VerifyResult.noConfusion h

theorem create_inv (s : State) (uid : Nat) (its : List CreateItem)
    (o : Order) (h : (create_order s uid its).2 = .created o) :
    ∃ lines, validateCreateLines s.products its = .ok lines ∧
      o = (commitOrder s uid lines).2 ∧
      (create_order s uid its).1 = (commitOrder s uid lines).1 := by
  rcases create_order_cases s uid its with
    ⟨_, hrun⟩ | ⟨e, hv, hrun⟩ | ⟨lines, hv, hrun⟩
  · rw [hrun] at h; exact CreateResult.noConfusion h
  · rw [hrun] at h; exact CreateResult.noConfusion h
  · rw [hrun] at h
    injection h with h1
    exact ⟨lines, hv, h1.symm, by rw [hrun]⟩

theorem create_error_state (s : State) (uid : Nat) (its : List CreateItem)
    (e : OrderError) (h : (create_order s uid its).2 = .error e) :
    (create_order s uid its).1 = s := by
  rcases create_order_cases s uid its with
    ⟨_, hrun⟩ | ⟨e', hv, hrun⟩ | ⟨lines, hv, hrun⟩
  · rw [hrun]
  · rw [hrun]
  · rw [hrun] at h; exact CreateResult.noConfusion h

theorem linesOf_quantity_default :
    ∀ (pids : List Nat) (qtys : List Int) (i : Nat),
      qtys.length ≤ i → i < pids.length →
      ((linesOf pids qtys).map Prod.snd).getD i 0 = 1 := by
  intro pids
  induction pids with
  | nil => intro qtys i _ hp; exact absurd hp (by simp)
  | cons pid ps ih =>
    intro qtys i hq hp
    cases qtys with
    | nil =>
      cases i with
      | zero => rfl
      | succ j =>
        have := ih [] j (by simp) (by simpa using hp)
        simpa [linesOf] using this
    | cons q qs =>
      cases i with
      | zero => exact absurd hq (by simp)
      | succ j =>
        have := ih qs j (by simpa using hq) (by simpa using hp)
        simpa [linesOf] using this

/-! ## Demo data for the concrete witnesses -/

/-- Demo catalog: product 1 "A" price 10 stock 5, product 2 "B" price 4
stock 3; empty order and chat tables. -/
def demoState : State :=
  ⟨[⟨1, "A", 10, 5⟩, ⟨2, "B", 4, 3⟩], [], 1, []⟩

/-! ## Claims -/

/-- C5: the quote-only path (`confirm=false`) of POST /chat/order-verify
is side-effect-free: the database state is returned unchanged, the result
is a quote summary or a validation error (never a created order), and an
immediately repeated call returns the same answer. -/
theorem quote_only_no_side_effects (s : State) (uid : Nat)
    (pids : List Nat) (qtys : List Int) :
    (verify_order s uid pids qtys false).1 = s ∧
    ((∃ e, (verify_order s uid pids qtys false).2 = .error e) ∨
     (∃ lines t, (verify_order s uid pids qtys false).2 =
        .pendingConfirmation lines t)) ∧
    verify_order (verify_order s uid pids qtys false).1 uid pids qtys false
      = verify_order s uid pids qtys false := by
  rcases verify_order_cases s uid pids qtys false with
    ⟨_, hrun⟩ | ⟨e, hv, hrun⟩ | ⟨lines, hv, ⟨_, hrun⟩ | ⟨hfalse, _⟩⟩
  · rw [hrun]; exact ⟨rfl, Or.inl ⟨_, rfl⟩, hrun⟩
  · rw [hrun]; exact ⟨rfl, Or.inl ⟨_, rfl⟩, hrun⟩
  · rw [hrun]; exact ⟨rfl, Or.inr ⟨_, _, rfl⟩, hrun⟩
  · exact Bool.noConfusion hfalse

/-- C9: GET /chat/history returns at most 50 turns: exactly the suffix of
the user's chronological turn list past all but its last 50 entries (the
most recent 50, all when fewer exist, oldest-first), and only that user's
turns. -/
theorem chat_history_spec (s : State) (uid : Nat) :
    (chat_history s uid).length ≤ 50 ∧
    chat_history s uid =
      (s.chatLog.filter (fun t => t.user_id == uid)).drop
        ((s.chatLog.filter (fun t => t.user_id == uid)).length - 50) ∧
    (∀ t ∈ chat_history s uid, t.user_id = uid) ∧
    ∃ pre, s.chatLog.filter (fun t => t.user_id == uid) =
      pre ++ chat_history s uid := by
  have hmain : chat_history s uid =
      (s.chatLog.filter (fun t => t.user_id == uid)).drop
        ((s.chatLog.filter (fun t => t.user_id == uid)).length - 50) := by
    rw [chat_history, ← List.rtake_eq_reverse_take_reverse]
    rfl
  refine ⟨?_, hmain, ?_, ?_⟩
  · rw [hmain, List.length_drop]
    omega
  · intro t ht
    rw [hmain] at ht
    have hm := List.mem_filter.mp (List.drop_subset _ _ ht)
    simpa using hm.2
  · exact ⟨_, by rw [hmain]; exact (List.take_append_drop _ _).symm⟩

/-- The interleaving in which both sessions read the stock before either
writes: request 1 reads and checks, request 2 reads and checks, request 1
writes and commits, request 2 writes and commits. -/
def raceBothRead : List Bool := [true, false, true, false]

/-- The serialized schedule: request 1 runs to completion, then request 2. -/
def raceSerial : List Bool := [true, true, false, false]

/-- C6: the check-then-decrement of `verify_order` is NOT atomic.  Under
the serialized schedule two confirmations for the last unit behave as the
claim states (one order, one InsufficientStock, stock 0); but under the
interleaving where both sessions read stock 1 before either writes, BOTH
confirmations succeed: two orders are created and each session writes
stock 0 computed from its stale read — refuting "exactly one succeeds". -/
theorem race_both_confirmations_succeed :
    runRace 1 1 (raceInit 1) raceSerial =
      ⟨0, .done true, .done false, 1⟩ ∧
    runRace 1 1 (raceInit 1) raceBothRead =
      ⟨0, .done true, .done true, 2⟩ := by
  constructor <;> rfl

/-- C10: in POST /chat/order-verify, every product index past the end of
the quantities list is treated as quantity 1 rather than rejected: the
effective quantity list has a 1 at each such index, and both the quote
summary's quantities and a committed order's item quantities are exactly
that effective list. -/
theorem quantity_defaults_to_one (s : State) (uid : Nat) (pids : List Nat)
    (qtys : List Int) (i : Nat) (hq : qtys.length ≤ i)
    (hp : i < pids.length) :
    ((linesOf pids qtys).map Prod.snd).getD i 0 = 1 ∧
    (∀ lines t, (verify_order s uid pids qtys false).2 =
        .pendingConfirmation lines t →
      lines.map (fun l => l.quantity) = (linesOf pids qtys).map Prod.snd) ∧
    (∀ o, (verify_order s uid pids qtys true).2 = .orderCreated o →
      o.items.map (fun it => it.quantity) =
        (linesOf pids qtys).map Prod.snd) := by
  refine ⟨linesOf_quantity_default pids qtys i hq hp, ?_, ?_⟩
  · intro lines t h
    have hv := verify_quote_inv s uid pids qtys lines t h
    have hmap := (validateChat_ok_spec _ _ _ hv).1
    calc lines.map (fun l => l.quantity)
        = (lines.map (fun l => (l.product_id, l.quantity))).map Prod.snd := by
          rw [List.map_map]; rfl
      _ = (linesOf pids qtys).map Prod.snd := by rw [hmap]
  · intro o h
    obtain ⟨lines, hv, ho, _⟩ := verify_confirm_inv s uid pids qtys o h
    have hmap := (validateChat_ok_spec _ _ _ hv).1
    have hitems : o.items = mkItems lines := by rw [ho]; rfl
    calc o.items.map (fun it => it.quantity)
        = (lines.map (fun l => (l.product_id, l.quantity))).map Prod.snd := by
          rw [hitems]; unfold mkItems; rw [List.map_map, List.map_map]; rfl
      _ = (linesOf pids qtys).map Prod.snd := by rw [hmap]

/-- C10 witness: two products requested, one quantity supplied; index 1
defaults to quantity 1: the quote lists quantities [2, 1] and the
committed order's items carry quantities [2, 1]. -/
theorem quantity_defaults_to_one_witness :
    ((linesOf [1, 2] [2]).map Prod.snd).getD 1 0 = 1 ∧
    (∀ lines t, (verify_order demoState 7 [1, 2] [2] false).2 =
        .pendingConfirmation lines t →
      lines.map (fun l => l.quantity) = (linesOf [1, 2] [2]).map Prod.snd) := by
  have h := quantity_defaults_to_one demoState 7 [1, 2] [2] 1
    (by decide) (by decide)
  exact ⟨h.1, h.2.1⟩

/-- C1: both confirmed-order paths are atomic: a validation error returns
the state unchanged, and a success appends exactly one order whose items
correspond one-to-one (product id, quantity) with the requested lines,
with every product's stock decreased by exactly the total quantity the
new order's items record for it. -/
theorem confirmed_order_atomic (s : State) (uid : Nat) (pids : List Nat)
    (qtys : List Int) (its : List CreateItem) :
    (∀ e, (verify_order s uid pids qtys true).2 = .error e →
       (verify_order s uid pids qtys true).1 = s) ∧
    (∀ o, (verify_order s uid pids qtys true).2 = .orderCreated o →
       (verify_order s uid pids qtys true).1.orders = s.orders ++ [o] ∧
       o.items.map (fun it => (it.product_id, it.quantity)) =
         linesOf pids qtys ∧
       ∀ pid, stockOf (verify_order s uid pids qtys true).1 pid =
         (stockOf s pid).map (fun v => v - itemDelta o.items pid)) ∧
    (∀ e, (create_order s uid its).2 = .error e →
       (create_order s uid its).1 = s) ∧
    (∀ o, (create_order s uid its).2 = .created o →
       (create_order s uid its).1.orders = s.orders ++ [o] ∧
       o.items.map (fun it => (it.product_id, it.quantity)) =
         its.map (fun it => (it.product_id, it.quantity.getD 1)) ∧
       ∀ pid, stockOf (create_order s uid its).1 pid =
         (stockOf s pid).map (fun v => v - itemDelta o.items pid)) := by
  refine ⟨fun e h => verify_error_state s uid pids qtys true e h, ?_,
          fun e h => create_error_state s uid its e h, ?_⟩
  · intro o h
    obtain ⟨lines, hv, ho, hs⟩ := verify_confirm_inv s uid pids qtys o h
    have hmap := (validateChat_ok_spec _ _ _ hv).1
    have hitems : o.items = mkItems lines := by rw [ho]; rfl
    refine ⟨?_, ?_, ?_⟩
    · rw [hs, commitOrder_orders, ho]
    · rw [hitems, mkItems_pairs, hmap]
    · intro pid
      have hdelta : itemDelta o.items pid = reqDelta lines pid := by
        rw [hitems, itemDelta_mkItems]
      rw [hdelta, hs]
      unfold stockOf
      rw [commitOrder_stock]
      cases getProduct s.products pid <;> rfl
  · intro o h
    obtain ⟨lines, hv, ho, hs⟩ := create_inv s uid its o h
    have hmap := (validateCreate_ok_spec _ _ _ hv).1
    have hitems : o.items = mkItems lines := by rw [ho]; rfl
    refine ⟨?_, ?_, ?_⟩
    · rw [hs, commitOrder_orders, ho]
    · rw [hitems, mkItems_pairs, hmap]
    · intro pid
      have hdelta : itemDelta o.items pid = reqDelta lines pid := by
        rw [hitems, itemDelta_mkItems]
      rw [hdelta, hs]
      unfold stockOf
      rw [commitOrder_stock]
      cases getProduct s.products pid <;> rfl

/-- C1 witness: confirming 2 units of product 1 commits a single order
with one item (1, 2), and product 1's stock drops from 5 to 3. -/
theorem confirmed_order_atomic_witness :
    (verify_order demoState 7 [1] [2] true).2 =
      .orderCreated ⟨1, 7, .pending, 20, [⟨1, 2, 10⟩]⟩ ∧
    (verify_order demoState 7 [1] [2] true).1.orders =
      demoState.orders ++ [⟨1, 7, .pending, 20, [⟨1, 2, 10⟩]⟩] ∧
    stockOf (verify_order demoState 7 [1] [2] true).1 1 = some 3 := by
  have h2 := (confirmed_order_atomic demoState 7 [1] [2] [⟨2, some 1⟩]).2.1
    ⟨1, 7, .pending, 20, [⟨1, 2, 10⟩]⟩ (by decide)
  refine ⟨by decide, h2.1, ?_⟩
  rw [h2.2.2 1]
  decide

/-- C2 counterexample: with product 1 in stock, the chat path accepts a
requested quantity of 0 under `confirm=true`: no InvalidQuantity (or any)
error is raised and the committed order carries an item with quantity
0 < 1, refuting "quantity < 1 is rejected in both paths". -/
theorem chat_zero_quantity_accepted :
    (verify_order demoState 7 [1] [0] true).2 =
      .orderCreated ⟨1, 7, .pending, 0, [⟨1, 0, 10⟩]⟩ ∧
    ∀ e, (verify_order demoState 7 [1] [0] true).2 ≠ .error e := by
  have hmain : (verify_order demoState 7 [1] [0] true).2 =
      .orderCreated ⟨1, 7, .pending, 0, [⟨1, 0, 10⟩]⟩ := by decide
  exact ⟨hmain, fun e h => VerifyResult.noConfusion (hmain.symm.trans h)⟩

/-- C2 amended: the direct orders/create path rejects quantity < 1 before
any order creation, so every item of an order it commits has quantity ≥ 1
(the chat order-verify path performs no minimum-quantity check). -/
theorem create_order_quantity_ge_one (s : State) (uid : Nat)
    (its : List CreateItem) (o : Order)
    (h : (create_order s uid its).2 = .created o) :
    ∀ it ∈ o.items, 1 ≤ it.quantity := by
  obtain ⟨lines, hv, ho, _⟩ := create_inv s uid its o h
  have hmem := (validateCreate_ok_spec _ _ _ hv).2
  intro it hit
  have hitems : o.items = mkItems lines := by rw [ho]; rfl
  rw [hitems] at hit
  obtain ⟨l, hl, rfl⟩ := List.mem_map.mp hit
  exact (hmem l hl).1

/-- C2 witness: creating an order for 2 units of product 1 through
orders/create succeeds, and its (sole) item has quantity ≥ 1. -/
theorem create_order_quantity_ge_one_witness :
    (create_order demoState 7 [⟨1, some 2⟩]).2 =
      .created ⟨1, 7, .pending, 20, [⟨1, 2, 10⟩]⟩ ∧
    1 ≤ (⟨1, 2, 10⟩ : OrderItem).quantity := by
  refine ⟨by decide, ?_⟩
  exact create_order_quantity_ge_one demoState 7 [⟨1, some 2⟩]
    ⟨1, 7, .pending, 20, [⟨1, 2, 10⟩]⟩ (by decide) ⟨1, 2, 10⟩ (by decide)

/-- C3: for the owner's order, cancel_order succeeds exactly from pending
or confirmed: on success the stored order becomes cancelled and every
product's stock rises by exactly the quantity recorded on the order's
items for it; from any other status it fails with notCancellable and the
whole state is unchanged. -/
theorem cancel_order_spec (s : State) (uid oid : Nat) (o : Order)
    (ho : getOrder s.orders oid = some o) (hown : o.user_id = uid) :
    ((o.status = .pending ∨ o.status = .confirmed) →
       (cancel_order s uid oid).2 =
         .cancelled { o with status := .cancelled } ∧
       getOrder (cancel_order s uid oid).1.orders oid =
         some { o with status := .cancelled } ∧
       ∀ pid, stockOf (cancel_order s uid oid).1 pid =
         (stockOf s pid).map (fun v => v + itemDelta o.items pid)) ∧
    (¬(o.status = .pending ∨ o.status = .confirmed) →
       cancel_order s uid oid = (s, .notCancellable)) := by
  constructor
  · intro hst
    have hrun : cancel_order s uid oid =
        ({ s with
            products := o.items.foldl
              (fun ps it => incStock ps it.product_id it.quantity)
              s.products,
            orders := setOrder s.orders { o with status := .cancelled } },
         .cancelled { o with status := .cancelled }) := by
      unfold cancel_order
      rw [ho]
      dsimp only
      rw [if_neg (fun hne => hne hown), if_pos hst]
    refine ⟨by rw [hrun], ?_, ?_⟩
    · rw [hrun]
      exact getOrder_setOrder oid o { o with status := .cancelled } rfl
        s.orders ho
    · intro pid
      rw [hrun]
      unfold stockOf
      dsimp only
      rw [stock_foldl_inc]
      cases getProduct s.products pid <;> rfl
  · intro hst
    unfold cancel_order
    rw [ho]
    dsimp only
    rw [if_neg (fun hne => hne hown), if_neg hst]

/-- State with one confirmed order (2 units of product 2 at price 4) for
the C3 witness. -/
def demoOrderState : State :=
  ⟨[⟨1, "A", 10, 5⟩, ⟨2, "B", 4, 3⟩],
   [⟨1, 7, .confirmed, 8, [⟨2, 2, 4⟩]⟩], 2, []⟩

/-- C3 witness: cancelling the confirmed order restores product 2's stock
from 3 to 5 and the order becomes cancelled. -/
theorem cancel_order_spec_witness :
    (cancel_order demoOrderState 7 1).2 =
      .cancelled ⟨1, 7, .cancelled, 8, [⟨2, 2, 4⟩]⟩ ∧
    stockOf (cancel_order demoOrderState 7 1).1 2 = some 5 := by
  have h := (cancel_order_spec demoOrderState 7 1
    ⟨1, 7, .confirmed, 8, [⟨2, 2, 4⟩]⟩ (by decide) rfl).1 (Or.inr rfl)
  refine ⟨h.1, ?_⟩
  rw [h.2.2 2]
  decide

/-- C4: for item lists whose lines all pass validation, the quote path
returns total = Σ catalog-price · quantity over the lines, and that total
is invariant under any permutation of the requested lines. -/
theorem quote_total_perm_invariant (s : State) (uid uid' : Nat)
    (pids pids' : List Nat) (qtys qtys' : List Int)
    (hne : pids ≠ [])
    (hperm : (linesOf pids' qtys').Perm (linesOf pids qtys))
    (hvalid : ∀ pq ∈ linesOf pids qtys, ∃ p,
        getProduct s.products pq.1 = some p ∧ 1 ≤ pq.2 ∧ pq.2 ≤ p.stock) :
    ∃ lines lines',
      verify_order s uid pids qtys false =
        (s, .pendingConfirmation lines (linesTotal lines)) ∧
      verify_order s uid' pids' qtys' false =
        (s, .pendingConfirmation lines' (linesTotal lines')) ∧
      linesTotal lines = specTotal s.products (linesOf pids qtys) ∧
      linesTotal lines' = linesTotal lines := by
  obtain ⟨lines, hv⟩ := validateChat_isOk_of_valid (linesOf pids qtys)
    s.products (fun pq hpq => (hvalid pq hpq).imp (fun p hp => ⟨hp.1, hp.2.2⟩))
  obtain ⟨lines', hv'⟩ := validateChat_isOk_of_valid (linesOf pids' qtys')
    s.products (fun pq hpq =>
      (hvalid pq (hperm.mem_iff.mp hpq)).imp (fun p hp => ⟨hp.1, hp.2.2⟩))
  have hlen0 : pids.length ≠ 0 := by
    cases pids with
    | nil => exact absurd rfl hne
    | cons a l => simp
  have hlen : pids'.length = pids.length := by
    have hl := hperm.length_eq
    rwa [linesOf_length, linesOf_length] at hl
  have hne2 : pids.isEmpty = false := by
    cases pids with
    | nil => exact absurd rfl hne
    | cons a l => rfl
  have hne2' : pids'.isEmpty = false := by
    cases hp : pids' with
    | nil => rw [hp] at hlen; exact absurd hlen.symm hlen0
    | cons a l => rfl
  have hrun : verify_order s uid pids qtys false =
      (s, .pendingConfirmation lines (linesTotal lines)) := by
    simp [verify_order, hne2, hv]
  have hrun' : verify_order s uid' pids' qtys' false =
      (s, .pendingConfirmation lines' (linesTotal lines')) := by
    simp [verify_order, hne2', hv']
  refine ⟨lines, lines', hrun, hrun',
    linesTotal_eq_specTotal _ _ _ hv, ?_⟩
  rw [linesTotal_eq_specTotal _ _ _ hv, linesTotal_eq_specTotal _ _ _ hv']
  unfold specTotal
  exact (hperm.map _).sum_eq

/-- C4 witness: the quote for lines [(1,2),(2,1)] and its permutation
[(2,1),(1,2)] both succeed with the same total Σ price·qty. -/
theorem quote_total_perm_invariant_witness :
    ∃ lines lines',
      verify_order demoState 7 [1, 2] [2, 1] false =
        (demoState, .pendingConfirmation lines (linesTotal lines)) ∧
      verify_order demoState 8 [2, 1] [1, 2] false =
        (demoState, .pendingConfirmation lines' (linesTotal lines')) ∧
      linesTotal lines = specTotal demoState.products (linesOf [1, 2] [2, 1]) ∧
      linesTotal lines' = linesTotal lines := by
  apply quote_total_perm_invariant
  · decide
  · decide
  · intro pq hpq
    have hm : pq = (1, 2) ∨ pq = (2, 1) := by
      simpa [linesOf] using hpq
    rcases hm with rfl | rfl
    · exact ⟨⟨1, "A", 10, 5⟩, by decide, by decide, by decide⟩
    · exact ⟨⟨2, "B", 4, 3⟩, by decide, by decide, by decide⟩

/-- C7: whenever the generative responder is unavailable, uninitialized,
or raises, chat returns exactly the fallback response: success=true,
fallback=true, non-empty text drawn from the fixed canned set; no error
is surfaced to the caller. -/
theorem chat_falls_back_silently (st : RAGState)
    (gen : Except String (String × List ChatSource)) (message : String)
    (h : st.initialized = false ∨ st.vectorstoreReady = false ∨
         ∃ e, gen = .error e) :
    rag_chat st gen message = fallback_response message ∧
    (rag_chat st gen message).success = true ∧
    (rag_chat st gen message).fallback = true ∧
    (rag_chat st gen message).response ∈ cannedResponses ∧
    (rag_chat st gen message).response ≠ "" := by
  have hmain : rag_chat st gen message = fallback_response message := by
    rcases h with h | h | ⟨e, he⟩
    · simp [rag_chat, h]
    · simp [rag_chat, h]
    · subst he
      unfold rag_chat
      by_cases hc : (!st.initialized || !st.vectorstoreReady) = true
      · rw [if_pos hc]
      · rw [if_neg hc]
  have hcanned : fallbackText message ∈ cannedResponses := by
    simp only [fallbackText, cannedResponses]
    split_ifs <;> simp
  have hnonempty : ∀ r ∈ cannedResponses, r ≠ "" := by decide
  rw [hmain]
  exact ⟨rfl, rfl, rfl, hcanned, hnonempty _ hcanned⟩

/-- C7 witness: an uninitialized service with a raising generative call on
message "hi" yields the fallback response, drawn from the canned set. -/
theorem chat_falls_back_silently_witness :
    rag_chat ⟨false, false⟩ (.error "boom") "hi" = fallback_response "hi" ∧
    (rag_chat ⟨false, false⟩ (.error "boom") "hi").response ∈
      cannedResponses := by
  have h := chat_falls_back_silently ⟨false, false⟩ (.error "boom") "hi"
    (Or.inl rfl)
  exact ⟨h.1, h.2.2.2.1⟩

/-- C8: every order committed by either path satisfies
total_amount = Σ item.price·item.quantity with each item.price the catalog
price at creation time; a later catalog price change leaves every stored
order row untouched. -/
theorem order_total_price_snapshot (s : State) (uid : Nat)
    (pids : List Nat) (qtys : List Int) (its : List CreateItem) :
    (∀ o, (verify_order s uid pids qtys true).2 = .orderCreated o →
       totalInvariant o ∧
       ∀ it ∈ o.items, ∃ p, getProduct s.products it.product_id = some p ∧
         it.price = p.price) ∧
    (∀ o, (create_order s uid its).2 = .created o →
       totalInvariant o ∧
       ∀ it ∈ o.items, ∃ p, getProduct s.products it.product_id = some p ∧
         it.price = p.price) ∧
    (∀ (pid : Nat) (pr : Price),
       (setProductPrice s pid pr).orders = s.orders) := by
  refine ⟨?_, ?_, fun pid pr => rfl⟩
  · intro o h
    obtain ⟨lines, hv, ho, _⟩ := verify_confirm_inv s uid pids qtys o h
    have hmem := (validateChat_ok_spec _ _ _ hv).2
    subst ho
    refine ⟨totalInvariant_commit s uid lines, ?_⟩
    intro it hit
    obtain ⟨l, hl, rfl⟩ := List.mem_map.mp hit
    obtain ⟨p, hp, _, hprice, _⟩ := hmem l hl
    exact ⟨p, hp, hprice⟩
  · intro o h
    obtain ⟨lines, hv, ho, _⟩ := create_inv s uid its o h
    have hmem := (validateCreate_ok_spec _ _ _ hv).2
    subst ho
    refine ⟨totalInvariant_commit s uid lines, ?_⟩
    intro it hit
    obtain ⟨l, hl, rfl⟩ := List.mem_map.mp hit
    obtain ⟨_, p, hp, _, hprice, _⟩ := hmem l hl
    exact ⟨p, hp, hprice⟩

/-- C8 witness: the committed demo order satisfies the total invariant,
and a price change on product 1 leaves the orders table unchanged. -/
theorem order_total_price_snapshot_witness :
    totalInvariant ⟨1, 7, .pending, 20, [⟨1, 2, 10⟩]⟩ ∧
    (setProductPrice demoState 1 99).orders = demoState.orders := by
  have h := (order_total_price_snapshot demoState 7 [1] [2] []).1
    ⟨1, 7, .pending, 20, [⟨1, 2, 10⟩]⟩ (by decide)
  exact ⟨h.1, rfl⟩

end ECom
